import Mathlib

set_option linter.unusedVariables false

/-! Shallow embedding of the process-scheduler simulator (src/scheduler/main.rs):
    the shared decision protocol and the three policies RoundRobin, RobinPriority
    and CfsScheduler, with their next and stop operations. HashMaps are modelled
    as association lists whose order stands for the map's (unspecified) iteration
    order; Rust bounds-check and arithmetic-underflow panics are modelled by
    Option-valued operations returning none. -/

/-- Process states, as in the source. -/
inductive ProcessState
  | Ready
  | Running
  | Waiting
  deriving DecidableEq

/-- Pids are u64 in the source; pid arithmetic never overflows in the claims. -/
abbrev Pid := Nat

/-- Syscalls; Fork carries an i8 priority, modelled as Int. -/
inductive Syscall
  | Fork (prio : Int)
  | Sleep (n : Nat)
  | Exit
  | Wait (e : Nat)
  | Signal (e : Nat)
  deriving DecidableEq

/-- Stop reasons handed to stop by the driver. -/
inductive StopReason
  | Syscall (sc : Syscall) (remaining : Nat) (pid : Pid)
  | Expired (pid : Pid)
  deriving DecidableEq

/-- Results of stop. -/
inductive SyscallResult
  | Pid (p : Pid)
  | Success
  | NoRunningProcess
  deriving DecidableEq

/-- Decisions returned by next (timeslice is a NonZeroUsize in the source). -/
inductive SchedulingDecision
  | Run (pid : Pid) (timeslice : Nat)
  | Sleep (n : Nat)
  | Deadlock
  | Panic
  | Done
  deriving DecidableEq

/-- HashMap get, on the association-list model. -/
def alookup {α : Type} (k : Pid) : List (Pid × α) → Option α
  | [] => none
  | e :: rest => if e.1 = k then some e.2 else alookup k rest

/-- HashMap get_mut followed by a field mutation: apply f to the entry with key k. -/
def aupdate {α : Type} (k : Pid) (f : α → α) (l : List (Pid × α)) : List (Pid × α) :=
  l.map fun e => if e.1 = k then (e.1, f e.2) else e

/-- HashMap insert: replace the entry in place when the key is present, else append. -/
def ainsert {α : Type} (k : Pid) (v : α) (l : List (Pid × α)) : List (Pid × α) :=
  if (alookup k l).isSome then l.map (fun e => if e.1 = k then (k, v) else e)
  else l ++ [(k, v)]

/-- HashMap remove. -/
def aremove {α : Type} (k : Pid) (l : List (Pid × α)) : List (Pid × α) :=
  l.filter fun e => !(decide (e.1 = k))

/-- Key uniqueness: the HashMap representation invariant of the model. -/
abbrev wfTable {α : Type} (l : List (Pid × α)) : Prop := (l.map Prod.fst).Nodup

/-- Process record of RoundRobin and RobinPriority (struct MyProcess). -/
structure MyProcess where
  pid : Pid
  state : ProcessState
  priority : Int
  deriving DecidableEq

/-- State of the RoundRobin policy. -/
structure RoundRobin where
  processes : List (Pid × MyProcess)
  queue : List Pid
  timeslice : Nat
  next_pid : Pid
  deriving DecidableEq

/-- RoundRobin::next. A popped pid missing from the table falls through to the
    emptiness check, exactly as in the source. -/
def RoundRobin.next (s : RoundRobin) : RoundRobin × SchedulingDecision :=
  match s.queue with
  | pid :: rest =>
    match alookup pid s.processes with
    | some _ =>
      ({ s with queue := rest,
                processes := aupdate pid (fun p => { p with state := ProcessState.Running }) s.processes },
       SchedulingDecision.Run pid s.timeslice)
    | none =>
      if rest.isEmpty then ({ s with queue := rest }, SchedulingDecision.Sleep 1)
      else ({ s with queue := rest }, SchedulingDecision.Done)
  | [] => (s, SchedulingDecision.Sleep 1)

/-- RoundRobin::stop. -/
def RoundRobin.stop (s : RoundRobin) (reason : StopReason) : RoundRobin × SyscallResult :=
  match reason with
  | StopReason.Expired pid =>
    match alookup pid s.processes with
    | some _ =>
      ({ s with processes := aupdate pid (fun p => { p with state := ProcessState.Ready }) s.processes,
                queue := s.queue ++ [pid] },
       SyscallResult.Success)
    | none => (s, SyscallResult.Success)
  | StopReason.Syscall sc remaining pid =>
    match sc with
    | Syscall.Fork prio =>
      let child : MyProcess := { pid := s.next_pid, state := ProcessState.Ready, priority := prio }
      let s1 := { s with next_pid := s.next_pid + 1,
                         processes := ainsert child.pid child s.processes,
                         queue := s.queue ++ [child.pid] }
      match alookup pid s1.processes with
      | some _ =>
        ({ s1 with processes := aupdate pid (fun p => { p with state := ProcessState.Ready }) s1.processes,
                   queue := s1.queue ++ [pid] },
         SyscallResult.Pid child.pid)
      | none => (s1, SyscallResult.Pid child.pid)
    | Syscall.Exit => ({ s with processes := aremove pid s.processes }, SyscallResult.Success)
    | _ =>
      match alookup pid s.processes with
      | some _ =>
        ({ s with processes := aupdate pid (fun p => { p with state := ProcessState.Ready }) s.processes,
                  queue := s.queue ++ [pid] },
         SyscallResult.Success)
      | none => (s, SyscallResult.Success)

/-- State of the RobinPriority policy; queues is the array of six FIFOs. -/
structure RobinPriority where
  processes : List (Pid × MyProcess)
  queues : List (List Pid)
  timeslice : Nat
  next_pid : Pid
  deriving DecidableEq

/-- queues[i].push_back(pid): none models the Rust bounds-check panic (a negative
    i8 cast to usize is out of bounds as well). -/
def pushAt (qs : List (List Pid)) (i : Int) (pid : Pid) : Option (List (List Pid)) :=
  if 0 ≤ i ∧ i.toNat < qs.length then
    some (qs.set i.toNat ((qs.get? i.toNat).getD [] ++ [pid]))
  else none

/-- The descending scan of RobinPriority::next, for i in (0..6).rev(). A popped
    pid missing from the table is dropped and the scan moves on, as in the source. -/
def rrpScan : List Nat → RobinPriority → RobinPriority × SchedulingDecision
  | [], s => (s, SchedulingDecision.Sleep 1)
  | i :: rest, s =>
    match (s.queues.get? i).getD [] with
    | [] => rrpScan rest s
    | pid :: qrest =>
      let s1 := { s with queues := s.queues.set i qrest }
      match alookup pid s1.processes with
      | some _ =>
        ({ s1 with processes := aupdate pid (fun p => { p with state := ProcessState.Running }) s1.processes },
         SchedulingDecision.Run pid s1.timeslice)
      | none => rrpScan rest s1

/-- RobinPriority::next. -/
def RobinPriority.next (s : RobinPriority) : RobinPriority × SchedulingDecision :=
  rrpScan [5, 4, 3, 2, 1, 0] s

/-- RobinPriority::stop. The child of a Fork is enqueued with its priority taken
    unclamped from the syscall argument, before being inserted in the table. -/
def RobinPriority.stop (s : RobinPriority) (reason : StopReason) : Option (RobinPriority × SyscallResult) :=
  match reason with
  | StopReason.Expired pid =>
    match alookup pid s.processes with
    | some p =>
      let newprio := if p.priority > (0 : Int) then p.priority - 1 else p.priority
      let procs := aupdate pid (fun q => { q with priority := newprio, state := ProcessState.Ready }) s.processes
      match pushAt s.queues newprio pid with
      | some qs => some ({ s with processes := procs, queues := qs }, SyscallResult.Success)
      | none => none
    | none => some (s, SyscallResult.Success)
  | StopReason.Syscall sc remaining pid =>
    match sc with
    | Syscall.Exit => some ({ s with processes := aremove pid s.processes }, SyscallResult.Success)
    | Syscall.Fork prio =>
      let child : MyProcess := { pid := s.next_pid, state := ProcessState.Ready, priority := prio }
      let s1 := { s with next_pid := s.next_pid + 1 }
      match pushAt s1.queues child.priority child.pid with
      | some qs1 =>
        let s2 := { s1 with queues := qs1, processes := ainsert child.pid child s1.processes }
        match alookup pid s2.processes with
        | some p =>
          let newprio := if p.priority < (5 : Int) then p.priority + 1 else p.priority
          let procs := aupdate pid (fun q => { q with priority := newprio, state := ProcessState.Ready }) s2.processes
          match pushAt s2.queues newprio pid with
          | some qs2 => some ({ s2 with processes := procs, queues := qs2 }, SyscallResult.Pid child.pid)
          | none => none
        | none => some (s2, SyscallResult.Pid child.pid)
      | none => none
    | _ =>
      match alookup pid s.processes with
      | some p =>
        let newprio := if p.priority < (5 : Int) then p.priority + 1 else p.priority
        let procs := aupdate pid (fun q => { q with priority := newprio, state := ProcessState.Ready }) s.processes
        match pushAt s.queues newprio pid with
        | some qs => some ({ s with processes := procs, queues := qs }, SyscallResult.Success)
        | none => none
      | none => some (s, SyscallResult.Success)

/-- Process record of the CFS policy (struct CfsProcess); vruntime is u128. -/
structure CfsProcess where
  pid : Pid
  state : ProcessState
  vruntime : Nat
  deriving DecidableEq

/-- State of the CFS policy. -/
structure CfsScheduler where
  processes : List (Pid × CfsProcess)
  cfs_base_time : Nat
  next_pid : Pid
  deriving DecidableEq

/-- The u128::max_value() sentinel used to start the minimum scan. -/
def u128Max : Nat := 2 ^ 128 - 1

/-- The vector of ready pids collected at the top of CfsScheduler::next. -/
def readyList (s : CfsScheduler) : List Pid :=
  (s.processes.filter fun e => decide (e.2.state = ProcessState.Ready)).map Prod.fst

/-- The strict-minimum scan of CfsScheduler::next over the ready pids, carried out
    with accumulator (min_vruntime, s_pid) starting at (u128::MAX, 0). -/
def scanMin (procs : List (Pid × CfsProcess)) : List Pid → Nat × Pid → Nat × Pid
  | [], acc => acc
  | pid :: rest, acc =>
    match alookup pid procs with
    | some p =>
      if p.vruntime < acc.1 then scanMin procs rest (p.vruntime, pid)
      else scanMin procs rest acc
    | none => scanMin procs rest acc

/-- The timeslice computed by CfsScheduler::next: max(1, base / ready count). -/
def cfsSlice (s : CfsScheduler) : Nat :=
  let c := s.cfs_base_time / (readyList s).length
  if c < 1 then 1 else c

/-- CfsScheduler::next. -/
def CfsScheduler.next (s : CfsScheduler) : CfsScheduler × SchedulingDecision :=
  let rl := readyList s
  if rl.length = 0 then
    if s.processes.isEmpty then (s, SchedulingDecision.Done)
    else (s, SchedulingDecision.Sleep 1)
  else
    let acc := scanMin s.processes rl (u128Max, 0)
    ({ s with processes := aupdate acc.2 (fun p => { p with state := ProcessState.Running }) s.processes },
     SchedulingDecision.Run acc.2 (cfsSlice s))

/-- The active_procs count recomputed at the top of CfsScheduler::stop. -/
def cfsActive (s : CfsScheduler) : Nat :=
  (s.processes.filter fun e =>
    decide (e.2.state = ProcessState.Ready) || decide (e.2.state = ProcessState.Running)).length

/-- The allocated_time recomputed at the top of CfsScheduler::stop. -/
def cfsAllocated (s : CfsScheduler) : Nat :=
  let safe := if cfsActive s = 0 then 1 else cfsActive s
  let c := s.cfs_base_time / safe
  if c < 1 then 1 else c

/-- CfsScheduler::stop. The usize subtraction allocated_time - remaining panics on
    underflow in the source (debug build); none models that panic. -/
def CfsScheduler.stop (s : CfsScheduler) (reason : StopReason) : Option (CfsScheduler × SyscallResult) :=
  let allocated := cfsAllocated s
  match reason with
  | StopReason.Expired pid =>
    let procs := aupdate pid (fun p => { p with vruntime := p.vruntime + allocated, state := ProcessState.Ready }) s.processes
    some ({ s with processes := procs }, SyscallResult.Success)
  | StopReason.Syscall sc remaining pid =>
    if remaining ≤ allocated then
      let executed := allocated - remaining
      let s1 := { s with processes := aupdate pid (fun p => { p with vruntime := p.vruntime + executed }) s.processes }
      match sc with
      | Syscall.Exit => some ({ s1 with processes := aremove pid s1.processes }, SyscallResult.Success)
      | Syscall.Fork prio =>
        let parent_runtime := ((alookup pid s1.processes).map CfsProcess.vruntime).getD 0
        let child : CfsProcess := { pid := s1.next_pid, state := ProcessState.Ready, vruntime := parent_runtime }
        let s2 := { s1 with next_pid := s1.next_pid + 1, processes := ainsert child.pid child s1.processes }
        some ({ s2 with processes := aupdate pid (fun p => { p with state := ProcessState.Ready }) s2.processes },
              SyscallResult.Pid child.pid)
      | _ =>
        some ({ s1 with processes := aupdate pid (fun p => { p with state := ProcessState.Ready }) s1.processes },
              SyscallResult.Success)
    else none

/-- No process of the CFS table is in the Running state. -/
abbrev noRunning (s : CfsScheduler) : Prop :=
  ∀ e ∈ s.processes, e.2.state ≠ ProcessState.Running

/-! Concrete scheduler states used by counterexamples, code-bug evaluations and
    witnesses. -/

/-- A CFS table with two Ready processes of equal vruntime, the larger pid first
    in iteration order. -/
def cfsTie : CfsScheduler :=
  { processes := [(2, { pid := 2, state := ProcessState.Ready, vruntime := 5 }),
                  (1, { pid := 1, state := ProcessState.Ready, vruntime := 5 })],
    cfs_base_time := 20, next_pid := 3 }

/-- A RoundRobin table with the single process 1 currently Running. -/
def rrOneRunning : RoundRobin :=
  { processes := [(1, { pid := 1, state := ProcessState.Running, priority := 0 })],
    queue := [], timeslice := 3, next_pid := 2 }

/-- A RobinPriority table with the single process 1 (priority 2) currently Running. -/
def rrpOneRunning : RobinPriority :=
  { processes := [(1, { pid := 1, state := ProcessState.Running, priority := 2 })],
    queues := [[], [], [], [], [], []], timeslice := 3, next_pid := 2 }

/-- A CFS table with the single process 1 currently Running at vruntime 0. -/
def cfsOneRunning : CfsScheduler :=
  { processes := [(1, { pid := 1, state := ProcessState.Running, vruntime := 0 })],
    cfs_base_time := 20, next_pid := 2 }

/-- A RoundRobin table whose only process is Ready and enqueued: nothing Running. -/
def rrOneReady : RoundRobin :=
  { processes := [(1, { pid := 1, state := ProcessState.Ready, priority := 0 })],
    queue := [1], timeslice := 3, next_pid := 2 }

/-- A RoundRobin table with pid 1 Running and pid 2 Ready on the queue. -/
def rrInitAndChild : RoundRobin :=
  { processes := [(1, { pid := 1, state := ProcessState.Running, priority := 0 }),
                  (2, { pid := 2, state := ProcessState.Ready, priority := 0 })],
    queue := [2], timeslice := 3, next_pid := 3 }

/-- The empty RoundRobin scheduler. -/
def rrEmpty : RoundRobin := { processes := [], queue := [], timeslice := 3, next_pid := 1 }

/-- The empty RobinPriority scheduler. -/
def rrpEmpty : RobinPriority :=
  { processes := [], queues := [[], [], [], [], [], []], timeslice := 3, next_pid := 1 }

/-- The empty CFS scheduler. -/
def cfsEmpty : CfsScheduler := { processes := [], cfs_base_time := 20, next_pid := 1 }

/-- A RobinPriority table with the single process 1 (priority 3) currently Running. -/
def rrpOneRunningP3 : RobinPriority :=
  { processes := [(1, { pid := 1, state := ProcessState.Running, priority := 3 })],
    queues := [[], [], [], [], [], []], timeslice := 3, next_pid := 2 }

/-- Claim C1, counterexample: in cfsTie both pids 1 and 2 are Ready with the same
    vruntime 5, yet next returns Run for pid 2 (the first process in hash-map
    iteration order), not for the smallest pid 1. -/
theorem C1_cfs_tiebreak_counterexample :
    (CfsScheduler.next cfsTie).2 = SchedulingDecision.Run 2 10 ∧
    alookup 1 cfsTie.processes = some { pid := 1, state := ProcessState.Ready, vruntime := 5 } ∧
    alookup 2 cfsTie.processes = some { pid := 2, state := ProcessState.Ready, vruntime := 5 } ∧
    (1 : Pid) < 2 := by decide

/-- Claim C2: the code of every policy treats Wait(event) like a plain syscall,
    setting the running process back to Ready and re-enqueuing it (RR and RRP
    push it on a runqueue; RRP even rewards it with a priority bump); no waiting
    set exists anywhere. The spec requires state Waiting, membership in the
    waiting set of the event, and no re-enqueue. -/
theorem C2_wait_reenqueues :
    RoundRobin.stop rrOneRunning (StopReason.Syscall (Syscall.Wait 7) 1 1) =
      ({ processes := [(1, { pid := 1, state := ProcessState.Ready, priority := 0 })],
         queue := [1], timeslice := 3, next_pid := 2 }, SyscallResult.Success) ∧
    RobinPriority.stop rrpOneRunning (StopReason.Syscall (Syscall.Wait 7) 1 1) =
      some ({ processes := [(1, { pid := 1, state := ProcessState.Ready, priority := 3 })],
              queues := [[], [], [], [1], [], []], timeslice := 3, next_pid := 2 },
            SyscallResult.Success) ∧
    CfsScheduler.stop cfsOneRunning (StopReason.Syscall (Syscall.Wait 7) 1 1) =
      some ({ processes := [(1, { pid := 1, state := ProcessState.Ready, vruntime := 19 })],
              cfs_base_time := 20, next_pid := 2 }, SyscallResult.Success) := by decide

/-- Claim C3: with no process Running (rrOneReady has its only process Ready),
    stop(Expired 1) does not return NoRunningProcess: it returns Success and even
    mutates the state, duplicating pid 1 on the runqueue. The SyscallResult
    variant NoRunningProcess is never constructed by any policy. -/
theorem C3_stop_without_running :
    (∀ e ∈ rrOneReady.processes, e.2.state ≠ ProcessState.Running) ∧
    RoundRobin.stop rrOneReady (StopReason.Expired 1) =
      ({ processes := [(1, { pid := 1, state := ProcessState.Ready, priority := 0 })],
         queue := [1, 1], timeslice := 3, next_pid := 2 }, SyscallResult.Success) := by decide

/-- Claim C4: after pid 1 exits while pid 2 is still in the table, the next call
    to next returns Run for pid 2, not Panic: no policy ever constructs the Panic
    decision. -/
theorem C4_exit_of_init_no_panic :
    alookup 2 ((RoundRobin.stop rrInitAndChild (StopReason.Syscall Syscall.Exit 0 1)).1).processes =
      some { pid := 2, state := ProcessState.Ready, priority := 0 } ∧
    (((RoundRobin.stop rrInitAndChild (StopReason.Syscall Syscall.Exit 0 1)).1).next).2 =
      SchedulingDecision.Run 2 3 := by decide

/-- Claim C5: on an empty process table, RoundRobin and RobinPriority return
    Sleep(1) from next, never Done (RR's Done branch is dead code); only the CFS
    policy returns Done. -/
theorem C5_empty_table_decision :
    (rrEmpty.next).2 = SchedulingDecision.Sleep 1 ∧
    (rrpEmpty.next).2 = SchedulingDecision.Sleep 1 ∧
    (cfsEmpty.next).2 = SchedulingDecision.Done := by decide

/-- Claim C6: a Fork whose priority argument lies outside [0,5] is not clamped by
    the RRP code; the child is enqueued at the unclamped index and the scheduler
    hits the out-of-bounds panic (modelled by none), for 7 as well as for the
    negative argument -1. In-range arguments are stored unclamped but happen to
    lie in [0,5]. -/
theorem C6_rrp_fork_priority_not_clamped :
    RobinPriority.stop rrpOneRunningP3 (StopReason.Syscall (Syscall.Fork 7) 0 1) = none ∧
    RobinPriority.stop rrpOneRunningP3 (StopReason.Syscall (Syscall.Fork (-1)) 0 1) = none := by decide

/-- Claim C10: RoundRobin stop(Expired pid) for a pid absent from the process
    table returns Success and leaves the whole scheduler state unchanged. -/
theorem C10_rr_expired_unknown_pid (s : RoundRobin) (pid : Pid)
    (h : alookup pid s.processes = none) :
    s.stop (StopReason.Expired pid) = (s, SyscallResult.Success) := by
  simp [RoundRobin.stop, h]

/-- Claim C10, witness: the theorem applied to the empty scheduler and pid 5. -/
theorem C10_rr_expired_unknown_pid_witness :
    alookup 5 rrEmpty.processes = none ∧
    rrEmpty.stop (StopReason.Expired 5) = (rrEmpty, SyscallResult.Success) :=
  ⟨by decide, C10_rr_expired_unknown_pid rrEmpty 5 (by decide)⟩

/-! Lemmas about the association-list model of the HashMap. -/

/-- A successful lookup exhibits a member of the list. -/
lemma alookup_mem {α : Type} {k : Pid} {v : α} {l : List (Pid × α)}
    (h : alookup k l = some v) : (k, v) ∈ l := by
  induction l with
  | nil => simp [alookup] at h
  | cons e rest ih =>
    rw [alookup] at h
    split at h
    · next he =>
      cases Option.some.inj h
      exact List.mem_cons.mpr (Or.inl (by cases e; cases he; rfl))
    · exact List.mem_cons_of_mem _ (ih h)

/-- Under key uniqueness, membership determines the lookup. -/
lemma mem_alookup {α : Type} {k : Pid} {v : α} {l : List (Pid × α)}
    (hwf : wfTable l) (h : (k, v) ∈ l) : alookup k l = some v := by
  induction l with
  | nil => cases h
  | cons e rest ih =>
    rw [wfTable, List.map_cons, List.nodup_cons] at hwf
    rw [alookup]
    rcases List.mem_cons.mp h with he | ht
    · cases he; simp
    · by_cases hek : e.1 = k
      · exfalso
        exact hwf.1 (hek ▸ List.mem_map.mpr ⟨(k, v), ht, rfl⟩)
      · rw [if_neg hek]
        exact ih hwf.2 ht

/-- A lookup is none exactly when the key is absent. -/
lemma alookup_eq_none {α : Type} {k : Pid} {l : List (Pid × α)} :
    alookup k l = none ↔ k ∉ l.map Prod.fst := by
  induction l with
  | nil => simp [alookup]
  | cons e rest ih =>
    rw [alookup]
    by_cases he : e.1 = k
    · simp [he]
    · simp [he, ih, Ne.symm he]

/-- Updating the looked-up key maps the looked-up value. -/
lemma alookup_aupdate_self {α : Type} (k : Pid) (f : α → α) (l : List (Pid × α)) :
    alookup k (aupdate k f l) = (alookup k l).map f := by
  induction l with
  | nil => rfl
  | cons e rest ih =>
    by_cases he : e.1 = k
    · simp [aupdate, alookup, he]
    · simpa [aupdate, alookup, he] using ih

/-- Cons equation for aupdate. -/
lemma aupdate_cons {α : Type} (k : Pid) (f : α → α) (e : Pid × α) (rest : List (Pid × α)) :
    aupdate k f (e :: rest) = (if e.1 = k then (e.1, f e.2) else e) :: aupdate k f rest := by
  rw [aupdate, List.map_cons]
  rfl

/-- Cons equation for alookup. -/
lemma alookup_cons {α : Type} (k : Pid) (e : Pid × α) (rest : List (Pid × α)) :
    alookup k (e :: rest) = if e.1 = k then some e.2 else alookup k rest := rfl

/-- Updating a different key leaves a lookup unchanged. -/
lemma alookup_aupdate_ne {α : Type} {k j : Pid} (h : j ≠ k) (f : α → α) (l : List (Pid × α)) :
    alookup k (aupdate j f l) = alookup k l := by
  induction l with
  | nil => rfl
  | cons e rest ih =>
    rw [aupdate_cons, alookup_cons, alookup_cons]
    by_cases he : e.1 = j
    · have hek : e.1 ≠ k := fun hh => h (he ▸ hh)
      rw [if_pos he, if_neg hek]
      simp only [hek, if_false]
      exact ih
    · rw [if_neg he]
      by_cases hek : e.1 = k
      · rw [if_pos hek, if_pos hek]
      · rw [if_neg hek, if_neg hek]
        exact ih

/-- A lookup is unchanged by replacing the entries of a different key in place. -/
lemma alookup_map_replace {α : Type} {k j : Pid} (h : j ≠ k) (v : α) (l : List (Pid × α)) :
    alookup k (l.map fun e => if e.1 = j then (j, v) else e) = alookup k l := by
  induction l with
  | nil => rfl
  | cons e rest ih =>
    rw [List.map_cons, alookup_cons, alookup_cons]
    by_cases he : e.1 = j
    · have hek : e.1 ≠ k := fun hh => h (he ▸ hh)
      rw [if_pos he, if_neg hek]
      simp only [h, if_false]
      exact ih
    · rw [if_neg he]
      by_cases hek : e.1 = k
      · rw [if_pos hek, if_pos hek]
      · rw [if_neg hek, if_neg hek]
        exact ih

/-- A lookup is unchanged by appending an entry with a different key. -/
lemma alookup_append_single_ne {α : Type} {k j : Pid} (h : j ≠ k) (v : α) (l : List (Pid × α)) :
    alookup k (l ++ [(j, v)]) = alookup k l := by
  induction l with
  | nil => simp [alookup_cons, alookup, h]
  | cons e rest ih =>
    rw [List.cons_append, alookup_cons, alookup_cons]
    by_cases hek : e.1 = k
    · rw [if_pos hek, if_pos hek]
    · rw [if_neg hek, if_neg hek]
      exact ih

/-- Inserting under a different key leaves a lookup unchanged. -/
lemma alookup_ainsert_ne {α : Type} {k j : Pid} (h : j ≠ k) (v : α) (l : List (Pid × α)) :
    alookup k (ainsert j v l) = alookup k l := by
  rw [ainsert]
  split
  · exact alookup_map_replace h v l
  · exact alookup_append_single_ne h v l

/-- aupdate leaves the key column unchanged. -/
lemma aupdate_keys {α : Type} (k : Pid) (f : α → α) (l : List (Pid × α)) :
    (aupdate k f l).map Prod.fst = l.map Prod.fst := by
  induction l with
  | nil => rfl
  | cons e rest ih =>
    by_cases he : e.1 = k <;> simp [aupdate, he] <;> simpa [aupdate] using ih

/-- aupdate preserves key uniqueness. -/
lemma wfTable_aupdate {α : Type} {l : List (Pid × α)} (hwf : wfTable l) (k : Pid) (f : α → α) :
    wfTable (aupdate k f l) := by
  rw [wfTable, aupdate_keys]
  exact hwf

/-! Lemmas about the CFS minimum scan. -/

/-- Equation of scanMin for a head whose lookup fails. -/
lemma scanMin_cons_none (procs : List (Pid × CfsProcess)) (q : Pid) (rest : List Pid)
    (acc : Nat × Pid) (h : alookup q procs = none) :
    scanMin procs (q :: rest) acc = scanMin procs rest acc := by
  rw [scanMin, h]

/-- Equation of scanMin for a head whose lookup succeeds. -/
lemma scanMin_cons_some (procs : List (Pid × CfsProcess)) (q : Pid) (rest : List Pid)
    (acc : Nat × Pid) (p : CfsProcess) (h : alookup q procs = some p) :
    scanMin procs (q :: rest) acc =
      if p.vruntime < acc.1 then scanMin procs rest (p.vruntime, q)
      else scanMin procs rest acc := by
  rw [scanMin, h]

/-- The first component of the scan never exceeds the accumulator minimum. -/
lemma scanMin_fst_le (procs : List (Pid × CfsProcess)) (l : List Pid) (acc : Nat × Pid) :
    (scanMin procs l acc).1 ≤ acc.1 := by
  induction l generalizing acc with
  | nil => exact le_refl _
  | cons q rest ih =>
    cases halo : alookup q procs with
    | none =>
      rw [scanMin_cons_none procs q rest acc halo]
      exact ih acc
    | some p =>
      rw [scanMin_cons_some procs q rest acc p halo]
      by_cases hv : p.vruntime < acc.1
      · rw [if_pos hv]
        exact le_trans (ih (p.vruntime, q)) (le_of_lt hv)
      · rw [if_neg hv]
        exact ih acc

/-- The first component of the scan bounds every vruntime looked up from the list. -/
lemma scanMin_le_all (procs : List (Pid × CfsProcess)) (l : List Pid) (acc : Nat × Pid) :
    ∀ pid ∈ l, ∀ p, alookup pid procs = some p → (scanMin procs l acc).1 ≤ p.vruntime := by
  induction l generalizing acc with
  | nil =>
    intro pid hm
    cases hm
  | cons q rest ih =>
    intro pid hm p hp
    rcases List.mem_cons.mp hm with rfl | hm2
    · rw [scanMin_cons_some procs pid rest acc p hp]
      by_cases hv : p.vruntime < acc.1
      · rw [if_pos hv]
        exact scanMin_fst_le procs rest (p.vruntime, pid)
      · rw [if_neg hv]
        exact le_trans (scanMin_fst_le procs rest acc) (not_lt.mp hv)
    · cases halo : alookup q procs with
      | none =>
        rw [scanMin_cons_none procs q rest acc halo]
        exact ih acc pid hm2 p hp
      | some r =>
        rw [scanMin_cons_some procs q rest acc r halo]
        by_cases hv : r.vruntime < acc.1
        · rw [if_pos hv]
          exact ih (r.vruntime, q) pid hm2 p hp
        · rw [if_neg hv]
          exact ih acc pid hm2 p hp

/-- The scan returns the untouched accumulator or a looked-up entry of the list. -/
lemma scanMin_result (procs : List (Pid × CfsProcess)) (l : List Pid) (acc : Nat × Pid) :
    scanMin procs l acc = acc ∨
    ((scanMin procs l acc).2 ∈ l ∧
      ∃ p, alookup (scanMin procs l acc).2 procs = some p ∧
        p.vruntime = (scanMin procs l acc).1) := by
  induction l generalizing acc with
  | nil =>
    left
    rfl
  | cons q rest ih =>
    cases halo : alookup q procs with
    | none =>
      rw [scanMin_cons_none procs q rest acc halo]
      rcases ih acc with h | h
      · left; exact h
      · right; exact ⟨List.mem_cons_of_mem _ h.1, h.2⟩
    | some p =>
      rw [scanMin_cons_some procs q rest acc p halo]
      by_cases hv : p.vruntime < acc.1
      · rw [if_pos hv]
        rcases ih (p.vruntime, q) with h | h
        · right
          rw [h]
          exact ⟨List.mem_cons_self _ _, p, halo, rfl⟩
        · right; exact ⟨List.mem_cons_of_mem _ h.1, h.2⟩
      · rw [if_neg hv]
        rcases ih acc with h | h
        · left; exact h
        · right; exact ⟨List.mem_cons_of_mem _ h.1, h.2⟩

/-- Membership in readyList. -/
lemma mem_readyList {s : CfsScheduler} {pid : Pid} :
    pid ∈ readyList s ↔ ∃ e ∈ s.processes, e.2.state = ProcessState.Ready ∧ e.1 = pid := by
  rw [readyList]
  simp only [List.mem_map, List.mem_filter, decide_eq_true_eq]
  constructor
  · rintro ⟨e, ⟨hm, hr⟩, hf⟩
    exact ⟨e, hm, hr, hf⟩
  · rintro ⟨e, hm, hr, hf⟩
    exact ⟨e, ⟨hm, hr⟩, hf⟩

/-- Characterization of CfsScheduler::next whenever some ready process has
    vruntime below the u128 sentinel: next marks a ready process of minimal
    vruntime Running and returns Run for it with the computed slice. -/
lemma cfs_next_run (s : CfsScheduler)
    (hwf : wfTable s.processes)
    (hready : ∃ e ∈ s.processes, e.2.state = ProcessState.Ready ∧ e.2.vruntime < u128Max) :
    ∃ pid p,
      alookup pid s.processes = some p ∧
      p.state = ProcessState.Ready ∧
      (∀ e ∈ s.processes, e.2.state = ProcessState.Ready → p.vruntime ≤ e.2.vruntime) ∧
      s.next = ({ s with processes :=
                    aupdate pid (fun q => { q with state := ProcessState.Running }) s.processes },
                SchedulingDecision.Run pid (cfsSlice s)) := by
  obtain ⟨e, he, hest, hev⟩ := hready
  have heRl : e.1 ∈ readyList s := mem_readyList.mpr ⟨e, he, hest, rfl⟩
  have hlen : ¬((readyList s).length = 0) := by
    intro h0
    rw [List.length_eq_zero] at h0
    rw [h0] at heRl
    cases heRl
  have helo : alookup e.1 s.processes = some e.2 := mem_alookup hwf (by cases e; exact he)
  have hlt : (scanMin s.processes (readyList s) (u128Max, 0)).1 < u128Max :=
    lt_of_le_of_lt (scanMin_le_all s.processes (readyList s) (u128Max, 0) e.1 heRl e.2 helo) hev
  rcases scanMin_result s.processes (readyList s) (u128Max, 0) with h | h
  · exfalso
    rw [h] at hlt
    exact lt_irrefl _ hlt
  · obtain ⟨hmem, p, hp, hpv⟩ := h
    refine ⟨(scanMin s.processes (readyList s) (u128Max, 0)).2, p, hp, ?_, ?_, ?_⟩
    · obtain ⟨e2, he2m, he2r, hfst⟩ := mem_readyList.mp hmem
      have hl2 : alookup (scanMin s.processes (readyList s) (u128Max, 0)).2 s.processes = some e2.2 := by
        rw [← hfst]
        exact mem_alookup hwf (by cases e2; exact he2m)
      rw [hp] at hl2
      rw [Option.some.inj hl2]
      exact he2r
    · intro e3 he3 he3r
      have hl3 : alookup e3.1 s.processes = some e3.2 := mem_alookup hwf (by cases e3; exact he3)
      have h31 : e3.1 ∈ readyList s := mem_readyList.mpr ⟨e3, he3, he3r, rfl⟩
      rw [hpv]
      exact scanMin_le_all s.processes (readyList s) (u128Max, 0) e3.1 h31 e3.2 hl3
    · simp only [CfsScheduler.next]
      rw [if_neg hlen]

/-- Claim C1 (amended): whenever some ready process has vruntime below u128::MAX,
    CFS next returns Run for a ready process whose vruntime is minimal among all
    ready processes; a tie among equal minima falls to the first such process in
    hash-map iteration order, not necessarily to the smallest pid. -/
theorem C1_cfs_next_min_vruntime (s : CfsScheduler)
    (hwf : wfTable s.processes)
    (hready : ∃ e ∈ s.processes, e.2.state = ProcessState.Ready ∧ e.2.vruntime < u128Max) :
    ∃ pid p s2,
      s.next = (s2, SchedulingDecision.Run pid (cfsSlice s)) ∧
      alookup pid s.processes = some p ∧
      p.state = ProcessState.Ready ∧
      ∀ e ∈ s.processes, e.2.state = ProcessState.Ready → p.vruntime ≤ e.2.vruntime := by
  obtain ⟨pid, p, hp, hr, hmin, hnext⟩ := cfs_next_run s hwf hready
  exact ⟨pid, p, _, hnext, hp, hr, hmin⟩

/-- Claim C1 (amended), witness: the theorem applied to the concrete state cfsTie. -/
theorem C1_cfs_next_min_vruntime_witness :
    ∃ pid p s2,
      cfsTie.next = (s2, SchedulingDecision.Run pid (cfsSlice cfsTie)) ∧
      alookup pid cfsTie.processes = some p ∧
      p.state = ProcessState.Ready ∧
      ∀ e ∈ cfsTie.processes, e.2.state = ProcessState.Ready → p.vruntime ≤ e.2.vruntime :=
  C1_cfs_next_min_vruntime cfsTie (by decide) (by decide)

/-- aupdate of an absent key is the identity. -/
lemma aupdate_of_not_mem {α : Type} {k : Pid} {l : List (Pid × α)}
    (h : k ∉ l.map Prod.fst) (f : α → α) : aupdate k f l = l := by
  induction l with
  | nil => rfl
  | cons e rest ih =>
    have h1 : ¬(e.1 = k) := by
      intro hh
      exact h (by rw [List.map_cons, hh]; exact List.mem_cons_self _ _)
    have h2 : k ∉ rest.map Prod.fst := by
      intro hh
      exact h (by rw [List.map_cons]; exact List.mem_cons_of_mem _ hh)
    rw [aupdate_cons, if_neg h1, ih h2]

/-- Filter length is unchanged by aupdate when the predicate is preserved at the
    updated entry, assuming unique keys. -/
lemma length_filter_aupdate {α : Type} (k : Pid) (f : α → α) (pr : Pid × α → Bool)
    {l : List (Pid × α)} (hwf : wfTable l)
    (hpres : ∀ v, alookup k l = some v → pr (k, f v) = pr (k, v)) :
    ((aupdate k f l).filter pr).length = (l.filter pr).length := by
  induction l with
  | nil => rfl
  | cons e rest ih =>
    rw [wfTable, List.map_cons, List.nodup_cons] at hwf
    rw [aupdate_cons]
    by_cases he : e.1 = k
    · rw [if_pos he]
      have htail : aupdate k f rest = rest := aupdate_of_not_mem (he ▸ hwf.1) f
      have hlook : alookup k (e :: rest) = some e.2 := by rw [alookup_cons, if_pos he]
      have hpr : pr (e.1, f e.2) = pr e := by
        have := hpres e.2 hlook
        cases e with
        | mk e1 e2 =>
          cases he
          exact this
      rw [htail, List.filter_cons, List.filter_cons, hpr]
      by_cases hc : pr e = true
      · rw [if_pos hc, if_pos hc]
        simp
      · rw [if_neg hc, if_neg hc]
    · rw [if_neg he]
      have hlook : alookup k (e :: rest) = alookup k rest := by rw [alookup_cons, if_neg he]
      have ih2 := ih hwf.2 (fun v hv => hpres v (hlook ▸ hv))
      rw [List.filter_cons, List.filter_cons]
      by_cases hc : pr e = true
      · rw [if_pos hc, if_pos hc, List.length_cons, List.length_cons, ih2]
      · rw [if_neg hc, if_neg hc, ih2]

/-- Marking a Ready process Running preserves the Ready-or-Running count. -/
lemma cfsActive_update_running (s : CfsScheduler) (pid : Pid) (p : CfsProcess)
    (hwf : wfTable s.processes) (hp : alookup pid s.processes = some p)
    (hr : p.state = ProcessState.Ready) :
    cfsActive { s with
      processes := aupdate pid (fun q => { q with state := ProcessState.Running }) s.processes } =
      cfsActive s := by
  rw [cfsActive, cfsActive]
  dsimp only
  refine length_filter_aupdate pid _ _ hwf ?_
  intro v hv
  rw [hp] at hv
  cases Option.some.inj hv
  simp [hr]

/-- Under noRunning the Ready-or-Running count is the number of ready processes. -/
lemma cfsActive_eq_readyLength (s : CfsScheduler) (hnr : noRunning s) :
    cfsActive s = (readyList s).length := by
  rw [cfsActive, readyList, List.length_map]
  congr 1
  apply List.filter_congr
  intro e he
  cases he2 : e.2.state with
  | Ready => simp [he2]
  | Running => exact absurd he2 (hnr e he)
  | Waiting => simp [he2]

/-- After next returns Run, the allocated time recomputed at the top of stop
    equals the granted timeslice: the Ready-or-Running count seen by stop is the
    Ready count seen by next. -/
lemma cfsAllocated_after_run (s s2 : CfsScheduler) (pid ts : Nat)
    (hwf : wfTable s.processes) (hnr : noRunning s)
    (hready : ∃ e ∈ s.processes, e.2.state = ProcessState.Ready ∧ e.2.vruntime < u128Max)
    (hnext : s.next = (s2, SchedulingDecision.Run pid ts)) :
    cfsActive s2 = (readyList s).length ∧ cfsAllocated s2 = ts ∧
    ∃ p, alookup pid s.processes = some p ∧ p.state = ProcessState.Ready ∧
      s2 = { s with
        processes := aupdate pid (fun q => { q with state := ProcessState.Running }) s.processes } := by
  obtain ⟨pid0, p0, hp0, hr0, hmin0, hnext0⟩ := cfs_next_run s hwf hready
  have hpair := hnext.symm.trans hnext0
  have hs2 := congrArg Prod.fst hpair
  have hrun := congrArg Prod.snd hpair
  dsimp only at hs2 hrun
  injection hrun with hpid hts
  subst hpid
  subst hts
  have hn0 : ¬((readyList s).length = 0) := by
    intro h0
    have : pid ∈ readyList s := mem_readyList.mpr ⟨(pid, p0), alookup_mem hp0, hr0, rfl⟩
    rw [List.length_eq_zero] at h0
    rw [h0] at this
    cases this
  have hact : cfsActive s2 = (readyList s).length := by
    rw [hs2, cfsActive_update_running s pid p0 hwf hp0 hr0]
    exact cfsActive_eq_readyLength s hnr
  refine ⟨hact, ?_, p0, hp0, hr0, hs2⟩
  have hbase : s2.cfs_base_time = s.cfs_base_time := by rw [hs2]
  simp only [cfsAllocated, cfsSlice]
  rw [hact, hbase, if_neg hn0]

/-- Equation of CfsScheduler::stop for an Expired reason. -/
lemma cfs_stop_expired (s : CfsScheduler) (pid : Pid) :
    s.stop (StopReason.Expired pid) =
      some ({ s with
        processes := aupdate pid
          (fun q => { q with vruntime := q.vruntime + cfsAllocated s, state := ProcessState.Ready })
          s.processes }, SyscallResult.Success) := rfl

/-- Equation of CfsScheduler::stop for a Sleep syscall under no underflow. -/
lemma cfs_stop_sleep (s : CfsScheduler) (n remaining : Nat) (pid : Pid)
    (hcond : remaining ≤ cfsAllocated s) :
    s.stop (StopReason.Syscall (Syscall.Sleep n) remaining pid) =
      some ({ s with
        processes := aupdate pid (fun q => { q with state := ProcessState.Ready })
          (aupdate pid (fun q => { q with vruntime := q.vruntime + (cfsAllocated s - remaining) })
            s.processes) }, SyscallResult.Success) := by
  simp only [CfsScheduler.stop]
  rw [if_pos hcond]

/-- Equation of CfsScheduler::stop for a Wait syscall under no underflow. -/
lemma cfs_stop_wait (s : CfsScheduler) (ev remaining : Nat) (pid : Pid)
    (hcond : remaining ≤ cfsAllocated s) :
    s.stop (StopReason.Syscall (Syscall.Wait ev) remaining pid) =
      some ({ s with
        processes := aupdate pid (fun q => { q with state := ProcessState.Ready })
          (aupdate pid (fun q => { q with vruntime := q.vruntime + (cfsAllocated s - remaining) })
            s.processes) }, SyscallResult.Success) := by
  simp only [CfsScheduler.stop]
  rw [if_pos hcond]

/-- Equation of CfsScheduler::stop for a Signal syscall under no underflow. -/
lemma cfs_stop_signal (s : CfsScheduler) (ev remaining : Nat) (pid : Pid)
    (hcond : remaining ≤ cfsAllocated s) :
    s.stop (StopReason.Syscall (Syscall.Signal ev) remaining pid) =
      some ({ s with
        processes := aupdate pid (fun q => { q with state := ProcessState.Ready })
          (aupdate pid (fun q => { q with vruntime := q.vruntime + (cfsAllocated s - remaining) })
            s.processes) }, SyscallResult.Success) := by
  simp only [CfsScheduler.stop]
  rw [if_pos hcond]

/-- Equation of CfsScheduler::stop for a Fork syscall under no underflow. -/
lemma cfs_stop_fork (s : CfsScheduler) (prio : Int) (remaining : Nat) (pid : Pid)
    (hcond : remaining ≤ cfsAllocated s) :
    s.stop (StopReason.Syscall (Syscall.Fork prio) remaining pid) =
      some ({ s with
        next_pid := s.next_pid + 1,
        processes := aupdate pid (fun q => { q with state := ProcessState.Ready })
          (ainsert s.next_pid
            { pid := s.next_pid, state := ProcessState.Ready,
              vruntime := ((alookup pid
                (aupdate pid (fun q => { q with vruntime := q.vruntime + (cfsAllocated s - remaining) })
                  s.processes)).map CfsProcess.vruntime).getD 0 }
            (aupdate pid (fun q => { q with vruntime := q.vruntime + (cfsAllocated s - remaining) })
              s.processes)) }, SyscallResult.Pid s.next_pid) := by
  simp only [CfsScheduler.stop]
  rw [if_pos hcond]

/-- A CFS table with the single process 1 Ready at vruntime 0 (the state from
    which next yields cfsOneRunning). -/
def cfsOneReady : CfsScheduler :=
  { processes := [(1, { pid := 1, state := ProcessState.Ready, vruntime := 0 })],
    cfs_base_time := 20, next_pid := 2 }

/-- Claim C9: under the driver protocol, for a Syscall stop following a next that
    returned Run with timeslice ts, the Ready-or-Running count recomputed inside
    stop equals the Ready count used by next, the recomputed allocated time
    equals ts, and the usize subtraction cannot underflow: stop returns a value
    (no panic) whenever remaining does not exceed ts. -/
theorem C9_cfs_no_underflow (s s2 : CfsScheduler) (pid ts remaining : Nat) (sc : Syscall)
    (hwf : wfTable s.processes) (hnr : noRunning s)
    (hready : ∃ e ∈ s.processes, e.2.state = ProcessState.Ready ∧ e.2.vruntime < u128Max)
    (hnext : s.next = (s2, SchedulingDecision.Run pid ts))
    (hrem : remaining ≤ ts) :
    cfsActive s2 = (readyList s).length ∧
    cfsAllocated s2 = ts ∧
    (s2.stop (StopReason.Syscall sc remaining pid)).isSome = true := by
  obtain ⟨hact, hall, _⟩ := cfsAllocated_after_run s s2 pid ts hwf hnr hready hnext
  refine ⟨hact, hall, ?_⟩
  have hcond : remaining ≤ cfsAllocated s2 := by rw [hall]; exact hrem
  cases sc with
  | Fork prio => rw [cfs_stop_fork s2 prio remaining pid hcond]; rfl
  | Sleep n => rw [cfs_stop_sleep s2 n remaining pid hcond]; rfl
  | Exit =>
    simp only [CfsScheduler.stop]
    rw [if_pos hcond]
    rfl
  | Wait ev => rw [cfs_stop_wait s2 ev remaining pid hcond]; rfl
  | Signal ev => rw [cfs_stop_signal s2 ev remaining pid hcond]; rfl

/-- Claim C9, witness: the theorem applied to the one-process protocol step from
    cfsOneReady through next into cfsOneRunning, with a Sleep syscall leaving 5
    of the 20 granted ticks. -/
theorem C9_cfs_no_underflow_witness :
    cfsActive cfsOneRunning = (readyList cfsOneReady).length ∧
    cfsAllocated cfsOneRunning = 20 ∧
    (cfsOneRunning.stop (StopReason.Syscall (Syscall.Sleep 1) 5 1)).isSome = true :=
  C9_cfs_no_underflow cfsOneReady cfsOneRunning 1 20 5 (Syscall.Sleep 1)
    (by decide) (by decide) (by decide) (by decide) (by decide)

/-- Claim C7: under the driver protocol, an Expired stop adds exactly the granted
    timeslice ts to the stopped process's vruntime, and a Syscall stop other than
    Exit adds exactly ts - remaining; in both cases the vruntime does not
    decrease. -/
theorem C7_cfs_vruntime_increment (s s2 : CfsScheduler) (pid ts remaining : Nat)
    (sc : Syscall) (p : CfsProcess)
    (hwf : wfTable s.processes) (hnr : noRunning s)
    (hready : ∃ e ∈ s.processes, e.2.state = ProcessState.Ready ∧ e.2.vruntime < u128Max)
    (hnext : s.next = (s2, SchedulingDecision.Run pid ts))
    (hp : alookup pid s.processes = some p)
    (hfresh : s.next_pid ≠ pid)
    (hrem : remaining ≤ ts) (hsc : sc ≠ Syscall.Exit) :
    (∃ s3, s2.stop (StopReason.Expired pid) = some (s3, SyscallResult.Success) ∧
       alookup pid s3.processes =
         some { pid := p.pid, state := ProcessState.Ready, vruntime := p.vruntime + ts }) ∧
    (∃ s3 res, s2.stop (StopReason.Syscall sc remaining pid) = some (s3, res) ∧
       alookup pid s3.processes =
         some { pid := p.pid, state := ProcessState.Ready,
                vruntime := p.vruntime + (ts - remaining) } ∧
       p.vruntime ≤ p.vruntime + (ts - remaining)) := by
  obtain ⟨hact, hall, p0, hp0, hr0, hs2⟩ := cfsAllocated_after_run s s2 pid ts hwf hnr hready hnext
  have hpp : p0 = p := Option.some.inj (hp0.symm.trans hp)
  subst hpp
  have hs2p : s2.processes =
      aupdate pid (fun q => { q with state := ProcessState.Running }) s.processes := by
    rw [hs2]
  have hs2np : s2.next_pid = s.next_pid := by rw [hs2]
  have hcond : remaining ≤ cfsAllocated s2 := by rw [hall]; exact hrem
  constructor
  · refine ⟨_, cfs_stop_expired s2 pid, ?_⟩
    dsimp only
    rw [hs2p]
    simp only [alookup_aupdate_self, hp, Option.map_some']
    simp [hall]
  · cases sc with
    | Exit => exact absurd rfl hsc
    | Fork prio =>
      have hne : s2.next_pid ≠ pid := by rw [hs2np]; exact hfresh
      refine ⟨_, _, cfs_stop_fork s2 prio remaining pid hcond, ?_, Nat.le_add_right _ _⟩
      dsimp only
      rw [hs2p]
      simp only [alookup_aupdate_self, alookup_ainsert_ne hne, hp, Option.map_some']
      simp [hall]
    | Sleep n =>
      refine ⟨_, _, cfs_stop_sleep s2 n remaining pid hcond, ?_, Nat.le_add_right _ _⟩
      dsimp only
      rw [hs2p]
      simp only [alookup_aupdate_self, hp, Option.map_some']
      simp [hall]
    | Wait ev =>
      refine ⟨_, _, cfs_stop_wait s2 ev remaining pid hcond, ?_, Nat.le_add_right _ _⟩
      dsimp only
      rw [hs2p]
      simp only [alookup_aupdate_self, hp, Option.map_some']
      simp [hall]
    | Signal ev =>
      refine ⟨_, _, cfs_stop_signal s2 ev remaining pid hcond, ?_, Nat.le_add_right _ _⟩
      dsimp only
      rw [hs2p]
      simp only [alookup_aupdate_self, hp, Option.map_some']
      simp [hall]

/-- Claim C7, witness: the theorem applied to the one-process protocol step from
    cfsOneReady (next grants ts = 20) with a Sleep syscall leaving 5 ticks. -/
theorem C7_cfs_vruntime_increment_witness :
    (∃ s3, cfsOneRunning.stop (StopReason.Expired 1) = some (s3, SyscallResult.Success) ∧
       alookup 1 s3.processes =
         some { pid := 1, state := ProcessState.Ready, vruntime := 0 + 20 }) ∧
    (∃ s3 res, cfsOneRunning.stop (StopReason.Syscall (Syscall.Sleep 1) 5 1) = some (s3, res) ∧
       alookup 1 s3.processes =
         some { pid := 1, state := ProcessState.Ready, vruntime := 0 + (20 - 5) } ∧
       (0 : Nat) ≤ 0 + (20 - 5)) :=
  C7_cfs_vruntime_increment cfsOneReady cfsOneRunning 1 20 5 (Syscall.Sleep 1)
    { pid := 1, state := ProcessState.Ready, vruntime := 0 }
    (by decide) (by decide) (by decide) (by decide) (by decide) (by decide) (by decide) (by decide)

/-- get? after set at the same in-range index. -/
lemma get?_set_self {α : Type} (l : List α) (i : Nat) (a : α) (h : i < l.length) :
    (l.set i a).get? i = some a := by
  induction l generalizing i with
  | nil => cases h
  | cons x xs ih =>
    cases i with
    | zero => rfl
    | succ n => exact ih n (Nat.lt_of_succ_lt_succ h)

/-- pushAt succeeds within bounds. -/
lemma pushAt_in_range (qs : List (List Pid)) (i : Int) (pid : Pid)
    (h0 : 0 ≤ i) (hl : i.toNat < qs.length) :
    pushAt qs i pid = some (qs.set i.toNat ((qs.get? i.toNat).getD [] ++ [pid])) := by
  rw [pushAt, if_pos ⟨h0, hl⟩]

/-- Claim C8: for RobinPriority, a stop with Expired decreases the stopped
    process's priority by 1 clamped at 0 and re-enqueues it at the tail of the
    queue of its new priority; a stop with any Syscall other than Exit increases
    its priority by 1 clamped at 5 and re-enqueues it likewise (for a Fork the
    child's unclamped priority must lie in [0,5], otherwise the enqueue of the
    child panics first, compare claim C6). -/
theorem C8_rrp_priority_adjust (s : RobinPriority) (pid : Pid) (p : MyProcess)
    (sc : Syscall) (remaining : Nat)
    (hwf : wfTable s.processes)
    (hq : s.queues.length = 6)
    (hp : alookup pid s.processes = some p)
    (hlo : 0 ≤ p.priority) (hhi : p.priority ≤ 5)
    (hfresh : s.next_pid ≠ pid)
    (hsc : sc ≠ Syscall.Exit)
    (hfork : ∀ prio, sc = Syscall.Fork prio → 0 ≤ prio ∧ prio ≤ 5) :
    (∃ s3, s.stop (StopReason.Expired pid) = some (s3, SyscallResult.Success) ∧
       alookup pid s3.processes =
         some { pid := p.pid, state := ProcessState.Ready,
                priority := max (p.priority - 1) 0 } ∧
       ∃ q, s3.queues.get? (max (p.priority - 1) 0).toNat = some (q ++ [pid])) ∧
    (∃ s3 res, s.stop (StopReason.Syscall sc remaining pid) = some (s3, res) ∧
       alookup pid s3.processes =
         some { pid := p.pid, state := ProcessState.Ready,
                priority := min (p.priority + 1) 5 } ∧
       ∃ q, s3.queues.get? (min (p.priority + 1) 5).toNat = some (q ++ [pid])) := by
  have hnewE : (if p.priority > (0 : Int) then p.priority - 1 else p.priority) =
      max (p.priority - 1) 0 := by
    by_cases hgt : (0 : Int) < p.priority
    · rw [if_pos hgt, max_eq_left (by omega)]
    · have h0 : p.priority = 0 := by omega
      rw [if_neg hgt, h0]
      decide
  have hnewS : (if p.priority < (5 : Int) then p.priority + 1 else p.priority) =
      min (p.priority + 1) 5 := by
    by_cases hlt : p.priority < (5 : Int)
    · rw [if_pos hlt, min_eq_left (by omega)]
    · have h5 : p.priority = 5 := by omega
      rw [if_neg hlt, h5]
      decide
  have hE0 : (0 : Int) ≤ max (p.priority - 1) 0 := le_max_right _ _
  have hE5 : max (p.priority - 1) 0 ≤ 5 := max_le (by omega) (by omega)
  have hEidx : (max (p.priority - 1) 0).toNat < s.queues.length := by
    rw [hq]
    omega
  have hS0 : (0 : Int) ≤ min (p.priority + 1) 5 := le_min (by omega) (by omega)
  have hS5 : min (p.priority + 1) 5 ≤ 5 := min_le_right _ _
  have hSidx : (min (p.priority + 1) 5).toNat < s.queues.length := by
    rw [hq]
    omega
  constructor
  · have hpushE := pushAt_in_range s.queues (max (p.priority - 1) 0) pid hE0 hEidx
    have hstopE : s.stop (StopReason.Expired pid) =
        some ({ s with
          processes := aupdate pid
            (fun q => { q with priority := max (p.priority - 1) 0, state := ProcessState.Ready })
            s.processes,
          queues := s.queues.set (max (p.priority - 1) 0).toNat
            ((s.queues.get? (max (p.priority - 1) 0).toNat).getD [] ++ [pid]) },
          SyscallResult.Success) := by
      simp only [RobinPriority.stop, hp, hnewE, hpushE]
    refine ⟨_, hstopE, ?_, ?_⟩
    · dsimp only
      simp only [alookup_aupdate_self, hp, Option.map_some']
    · refine ⟨(s.queues.get? (max (p.priority - 1) 0).toNat).getD [], ?_⟩
      dsimp only
      exact get?_set_self _ _ _ hEidx
  · cases sc with
    | Exit => exact absurd rfl hsc
    | Fork prio =>
      obtain ⟨hf0, hf5⟩ := hfork prio rfl
      have hCidx : prio.toNat < s.queues.length := by
        rw [hq]
        omega
      have hpushC := pushAt_in_range s.queues prio s.next_pid hf0 hCidx
      have halk : alookup pid
          (ainsert s.next_pid
            { pid := s.next_pid, state := ProcessState.Ready, priority := prio }
            s.processes) = some p := by
        rw [alookup_ainsert_ne hfresh]
        exact hp
      have hSidx2 : (min (p.priority + 1) 5).toNat <
          (s.queues.set prio.toNat
            ((s.queues.get? prio.toNat).getD [] ++ [s.next_pid])).length := by
        rw [List.length_set, hq]
        omega
      have hpushP := pushAt_in_range
        (s.queues.set prio.toNat ((s.queues.get? prio.toNat).getD [] ++ [s.next_pid]))
        (min (p.priority + 1) 5) pid hS0 hSidx2
      have hstopF : s.stop (StopReason.Syscall (Syscall.Fork prio) remaining pid) =
          some ({ s with
            next_pid := s.next_pid + 1,
            processes := aupdate pid
              (fun q => { q with priority := min (p.priority + 1) 5, state := ProcessState.Ready })
              (ainsert s.next_pid
                { pid := s.next_pid, state := ProcessState.Ready, priority := prio }
                s.processes),
            queues := (s.queues.set prio.toNat
                ((s.queues.get? prio.toNat).getD [] ++ [s.next_pid])).set
              (min (p.priority + 1) 5).toNat
              (((s.queues.set prio.toNat
                  ((s.queues.get? prio.toNat).getD [] ++ [s.next_pid])).get?
                (min (p.priority + 1) 5).toNat).getD [] ++ [pid]) },
            SyscallResult.Pid s.next_pid) := by
        simp only [RobinPriority.stop, hpushC, halk, hnewS, hpushP]
      refine ⟨_, _, hstopF, ?_, ?_⟩
      · dsimp only
        simp only [alookup_aupdate_self, halk, Option.map_some']
      · refine ⟨((s.queues.set prio.toNat
            ((s.queues.get? prio.toNat).getD [] ++ [s.next_pid])).get?
            (min (p.priority + 1) 5).toNat).getD [], ?_⟩
        dsimp only
        exact get?_set_self _ _ _ hSidx2
    | Sleep n =>
      have hpushS := pushAt_in_range s.queues (min (p.priority + 1) 5) pid hS0 hSidx
      have hstopS : s.stop (StopReason.Syscall (Syscall.Sleep n) remaining pid) =
          some ({ s with
            processes := aupdate pid
              (fun q => { q with priority := min (p.priority + 1) 5, state := ProcessState.Ready })
              s.processes,
            queues := s.queues.set (min (p.priority + 1) 5).toNat
              ((s.queues.get? (min (p.priority + 1) 5).toNat).getD [] ++ [pid]) },
            SyscallResult.Success) := by
        simp only [RobinPriority.stop, hp, hnewS, hpushS]
      refine ⟨_, _, hstopS, ?_, ?_⟩
      · dsimp only
        simp only [alookup_aupdate_self, hp, Option.map_some']
      · refine ⟨(s.queues.get? (min (p.priority + 1) 5).toNat).getD [], ?_⟩
        dsimp only
        exact get?_set_self _ _ _ hSidx
    | Wait ev =>
      have hpushS := pushAt_in_range s.queues (min (p.priority + 1) 5) pid hS0 hSidx
      have hstopW : s.stop (StopReason.Syscall (Syscall.Wait ev) remaining pid) =
          some ({ s with
            processes := aupdate pid
              (fun q => { q with priority := min (p.priority + 1) 5, state := ProcessState.Ready })
              s.processes,
            queues := s.queues.set (min (p.priority + 1) 5).toNat
              ((s.queues.get? (min (p.priority + 1) 5).toNat).getD [] ++ [pid]) },
            SyscallResult.Success) := by
        simp only [RobinPriority.stop, hp, hnewS, hpushS]
      refine ⟨_, _, hstopW, ?_, ?_⟩
      · dsimp only
        simp only [alookup_aupdate_self, hp, Option.map_some']
      · refine ⟨(s.queues.get? (min (p.priority + 1) 5).toNat).getD [], ?_⟩
        dsimp only
        exact get?_set_self _ _ _ hSidx
    | Signal ev =>
      have hpushS := pushAt_in_range s.queues (min (p.priority + 1) 5) pid hS0 hSidx
      have hstopG : s.stop (StopReason.Syscall (Syscall.Signal ev) remaining pid) =
          some ({ s with
            processes := aupdate pid
              (fun q => { q with priority := min (p.priority + 1) 5, state := ProcessState.Ready })
              s.processes,
            queues := s.queues.set (min (p.priority + 1) 5).toNat
              ((s.queues.get? (min (p.priority + 1) 5).toNat).getD [] ++ [pid]) },
            SyscallResult.Success) := by
        simp only [RobinPriority.stop, hp, hnewS, hpushS]
      refine ⟨_, _, hstopG, ?_, ?_⟩
      · dsimp only
        simp only [alookup_aupdate_self, hp, Option.map_some']
      · refine ⟨(s.queues.get? (min (p.priority + 1) 5).toNat).getD [], ?_⟩
        dsimp only
        exact get?_set_self _ _ _ hSidx

/-- Claim C8, witness: the theorem applied to rrpOneRunningP3 (priority 3), with
    a Sleep syscall as the non-Exit stop. -/
theorem C8_rrp_priority_adjust_witness :
    (∃ s3, rrpOneRunningP3.stop (StopReason.Expired 1) = some (s3, SyscallResult.Success) ∧
       alookup 1 s3.processes =
         some { pid := 1, state := ProcessState.Ready, priority := max ((3 : Int) - 1) 0 } ∧
       ∃ q, s3.queues.get? (max ((3 : Int) - 1) 0).toNat = some (q ++ [1])) ∧
    (∃ s3 res, rrpOneRunningP3.stop (StopReason.Syscall (Syscall.Sleep 2) 1 1) = some (s3, res) ∧
       alookup 1 s3.processes =
         some { pid := 1, state := ProcessState.Ready, priority := min ((3 : Int) + 1) 5 } ∧
       ∃ q, s3.queues.get? (min ((3 : Int) + 1) 5).toNat = some (q ++ [1])) :=
  C8_rrp_priority_adjust rrpOneRunningP3 1
    { pid := 1, state := ProcessState.Running, priority := 3 }
    (Syscall.Sleep 2) 1
    (by decide) (by decide) (by decide) (by decide) (by decide) (by decide) (by decide)
    (fun prio h => Syscall.noConfusion h)
